import Mathlib

/-!
Verification of the entity-cache layer of this repository (an ngrx-data
demo): metadata-driven entity collections, their reducer, selectors,
pluralizer, URL generator, dispatcher defaults, and the demo
VillainListComponent.

The library core (reducer/selectors/dispatcher/pluralizer) is not present
in the repository sources; only its documentation (docs/entity-metadata.md)
and a consuming component are.  Those parts are therefore modelled from the
specification, as marked on each definition.  The VillainListComponent is
embedded directly from src/client/app/heroic/villains/villain-list.component.ts.
-/

namespace NgrxData

/-- Modelled from the spec: association-list lookup used for the
`entities` mapping of a collection slice (mapping key to entity) and for
the pluralizer override mapping.  First binding for a key wins, matching
a case-sensitive exact lookup. -/
def alookup {κ : Type} {α : Type} [DecidableEq κ] (k : κ) : List (κ × α) → Option α
  | [] => none
  | p :: ps => if p.1 = k then some p.2 else alookup k ps

/-- Key sequence of an association list, in list order. -/
def akeys {κ : Type} {α : Type} (es : List (κ × α)) : List κ :=
  es.map Prod.fst

/-- Modelled from the spec: the CollectionSlice record of the missing
library core: ordered `ids`, `entities` mapping, `filter` pattern and the
`loading` / `loaded` flags. -/
@[ext]
structure Slice (κ : Type) (α : Type) where
  ids : List κ
  entities : List (κ × α)
  filter : String
  loading : Bool
  loaded : Bool
deriving DecidableEq, Repr

/-- Modelled from the spec: per-entity-type metadata of the missing
library core.  The JavaScript sortComparer returns a number; it is
embedded as the induced boolean relation `le a b` meaning
`sortComparer(a, b) <= 0`. -/
structure EntityDef (κ : Type) (α : Type) where
  selectId : α → κ
  sortComparer : Option (α → α → Bool)
  filterFn : Option (List α → String → List α)

/-- Order on entity pairs induced by a boolean comparer on the entity
values. -/
def pairLe {κ : Type} {α : Type} (le : α → α → Bool) (p q : κ × α) : Prop :=
  le p.2 q.2 = true

instance pairLeDecidable {κ : Type} {α : Type} (le : α → α → Bool) :
    DecidableRel (pairLe le : κ × α → κ × α → Prop) :=
  fun _ _ => instDecidableEqBool _ _

/-- Modelled from the spec: insert an entity into a slice.  If the key is
already present nothing changes (the invariant forbids duplicate keys);
otherwise with no sortComparer the entity is appended at the end, and with
a sortComparer it is inserted at its sorted position (the ids sequence is
re-derived from the sorted entities). -/
def insertEntity {κ : Type} {α : Type} [DecidableEq κ]
    (d : EntityDef κ α) (e : α) (s : Slice κ α) : Slice κ α :=
  if d.selectId e ∈ s.ids then s
  else
    match d.sortComparer with
    | none =>
        { s with
          ids := s.ids ++ [d.selectId e],
          entities := s.entities ++ [(d.selectId e, e)] }
    | some le =>
        { s with
          ids := akeys (List.orderedInsert (pairLe le) (d.selectId e, e) s.entities),
          entities := List.orderedInsert (pairLe le) (d.selectId e, e) s.entities }

/-- Modelled from the spec: remove the entity with the given key; removal
is in place (remaining entities are not reordered). -/
def removeEntity {κ : Type} {α : Type} [DecidableEq κ]
    (k : κ) (s : Slice κ α) : Slice κ α :=
  { s with
    ids := s.ids.erase k,
    entities := s.entities.filter (fun p => decide (p.1 ≠ k)) }

/-- Modelled from the spec: apply an update.  Without a sortComparer the
entity value is replaced in place (position unchanged); with a
sortComparer the ids sequence is re-derived by sorting (the updated
entity is re-inserted at its sorted position).  Updating an absent key
changes nothing. -/
def updateEntity {κ : Type} {α : Type} [DecidableEq κ]
    (d : EntityDef κ α) (e : α) (s : Slice κ α) : Slice κ α :=
  if d.selectId e ∈ s.ids then
    match d.sortComparer with
    | none =>
        { s with
          entities :=
            s.entities.map
              (fun p => if p.1 = d.selectId e then (d.selectId e, e) else p) }
    | some le =>
        { s with
          ids :=
            akeys (List.orderedInsert (pairLe le) (d.selectId e, e)
              (s.entities.filter (fun p => decide (p.1 ≠ d.selectId e)))),
          entities :=
            List.orderedInsert (pairLe le) (d.selectId e, e)
              (s.entities.filter (fun p => decide (p.1 ≠ d.selectId e))) }
  else s

/-- Modelled from the spec: rollback of an optimistic delete re-inserts
the removed entity at its prior position `i` when no sortComparer is set;
with a sortComparer the position is re-derived by sorting. -/
def reinsertEntity {κ : Type} {α : Type} [DecidableEq κ]
    (d : EntityDef κ α) (e : α) (i : Nat) (s : Slice κ α) : Slice κ α :=
  if d.selectId e ∈ s.ids then s
  else
    match d.sortComparer with
    | none =>
        { s with
          ids := s.ids.insertIdx i (d.selectId e),
          entities := s.entities.insertIdx i (d.selectId e, e) }
    | some le =>
        { s with
          ids := akeys (List.orderedInsert (pairLe le) (d.selectId e, e) s.entities),
          entities := List.orderedInsert (pairLe le) (d.selectId e, e) s.entities }

/-- Modelled from the spec: a successful QUERY_ALL result replaces the
collection contents with the server results, keeps the filter, and sets
`loading := false`, `loaded := true`. -/
def loadResults {κ : Type} {α : Type} [DecidableEq κ]
    (d : EntityDef κ α) (results : List α) (s : Slice κ α) : Slice κ α :=
  results.foldl (fun acc e => insertEntity d e acc)
    { ids := [], entities := [], filter := s.filter, loading := false, loaded := true }

/-- Modelled from the spec: insert or update, used by QUERY_MANY success
to merge server results into the existing collection. -/
def upsertEntity {κ : Type} {α : Type} [DecidableEq κ]
    (d : EntityDef κ α) (e : α) (s : Slice κ α) : Slice κ α :=
  if d.selectId e ∈ s.ids then updateEntity d e s else insertEntity d e s

/-- Modelled from the spec: a successful QUERY_MANY result merges the
server results into the collection and sets `loading := false`,
`loaded := true`. -/
def mergeResults {κ : Type} {α : Type} [DecidableEq κ]
    (d : EntityDef κ α) (results : List α) (s : Slice κ α) : Slice κ α :=
  let t := results.foldl (fun acc e => upsertEntity d e acc) s
  { t with loading := false, loaded := true }

/-- Modelled from the spec: the reducer actions for one collection.
Failure actions carry the data the dispatcher captured when it emitted
the optimistic action (the added entity, the pre-update snapshot, or the
deleted entity together with its prior index). -/
inductive Action (κ : Type) (α : Type) where
  | queryAllStart
  | queryAllSuccess (results : List α)
  | queryAllError
  | queryManyStart
  | queryManySuccess (results : List α)
  | queryManyError
  | saveAddOptimistic (e : α)
  | saveAddError (e : α)
  | saveAddPessimisticSuccess (e : α)
  | saveUpdateOptimistic (e : α)
  | saveUpdateError (old : α)
  | saveUpdatePessimisticSuccess (e : α)
  | saveDeleteOptimistic (k : κ)
  | saveDeleteError (e : α) (i : Nat)
  | saveDeletePessimisticSuccess (k : κ)
  | setFilterAction (pattern : String)

/-- Modelled from the spec: the pure collection reducer, one transition
per action kind.  It is a total function: no action throws. -/
def reduce {κ : Type} {α : Type} [DecidableEq κ]
    (d : EntityDef κ α) (s : Slice κ α) : Action κ α → Slice κ α
  | .queryAllStart => { s with loading := true }
  | .queryAllSuccess rs => loadResults d rs s
  | .queryAllError => { s with loading := false }
  | .queryManyStart => { s with loading := true }
  | .queryManySuccess rs => mergeResults d rs s
  | .queryManyError => { s with loading := false }
  | .saveAddOptimistic e => insertEntity d e s
  | .saveAddError e => removeEntity (d.selectId e) s
  | .saveAddPessimisticSuccess e => insertEntity d e s
  | .saveUpdateOptimistic e => updateEntity d e s
  | .saveUpdateError old => updateEntity d old s
  | .saveUpdatePessimisticSuccess e => updateEntity d e s
  | .saveDeleteOptimistic k => removeEntity k s
  | .saveDeleteError e i => reinsertEntity d e i s
  | .saveDeletePessimisticSuccess k => removeEntity k s
  | .setFilterAction p => { s with filter := p }

/-- Fold a sequence of actions through the reducer. -/
def reduceAll {κ : Type} {α : Type} [DecidableEq κ]
    (d : EntityDef κ α) (s : Slice κ α) (acts : List (Action κ α)) : Slice κ α :=
  acts.foldl (reduce d) s

/-- Well-formedness of a slice: the entity keys have no duplicates, `ids`
is exactly the key sequence of `entities` (so ids and entity keys are in
1:1 correspondence), and when a sortComparer is present the entities are
in sorted order. -/
structure WF {κ : Type} {α : Type} (d : EntityDef κ α) (s : Slice κ α) : Prop where
  nodup : (akeys s.entities).Nodup
  idsEq : s.ids = akeys s.entities
  sorted : ∀ le, d.sortComparer = some le → s.entities.Pairwise (pairLe le)

/-- Totality and transitivity of any comparer the metadata carries; the
spec assumes the caller-supplied comparer is a total order. -/
def GoodDef {κ : Type} {α : Type} (d : EntityDef κ α) : Prop :=
  ∀ le, d.sortComparer = some le →
    (∀ x y, le x y = true ∨ le y x = true) ∧
    (∀ x y z, le x y = true → le y z = true → le x z = true)

/-- Relation on keys induced by a comparer through the entities mapping:
whenever both keys resolve to entities, those entities are in order. -/
def keyLe {κ : Type} {α : Type} [DecidableEq κ]
    (le : α → α → Bool) (es : List (κ × α)) (k1 k2 : κ) : Prop :=
  ∀ a b, alookup k1 es = some a → alookup k2 es = some b → le a b = true

/-- Modelled from the spec: the selectAll selector, ids mapped to
entities in ids order. -/
def selectAll {κ : Type} {α : Type} [DecidableEq κ] (s : Slice κ α) : List α :=
  s.ids.filterMap (fun k => alookup k s.entities)

/-- Modelled from the spec: the filteredEntities selector: when a
filterFn is registered it is applied to selectAll and the slice's filter
pattern, otherwise the selector equals selectAll. -/
def filteredEntities {κ : Type} {α : Type} [DecidableEq κ]
    (d : EntityDef κ α) (s : Slice κ α) : List α :=
  match d.filterFn with
  | some f => f (selectAll s) s.filter
  | none => selectAll s

/-- Modelled from the spec: the default Pluralizer.  An exact
case-sensitive lookup in the override mapping; when the name is absent
the fallback heuristic appends an s. -/
def pluralize (overrides : List (String × String)) (name : String) : String :=
  match alookup name overrides with
  | some plural => plural
  | none => name ++ "s"

/-- ASCII lowercasing of one character, used by the URL generator. -/
def lowerChar (c : Char) : Char :=
  if 65 ≤ c.toNat ∧ c.toNat ≤ 90 then Char.ofNat (c.toNat + 32) else c

/-- ASCII lowercasing of a string. -/
def lowerString (s : String) : String :=
  String.mk (s.data.map lowerChar)

/-- Modelled from the spec: single-item resource URL segment, the
lowercase entity name. -/
def resourceUrl (entityName : String) : String :=
  lowerString entityName

/-- Modelled from the spec: collection resource URL segment, the
lowercase pluralized entity name. -/
def collectionUrl (overrides : List (String × String)) (entityName : String) : String :=
  lowerString (pluralize overrides entityName)

/-- Modelled from the spec: per-operation optimistic-save defaults of a
dispatcher. -/
structure DispatcherOptions where
  optimisticAdd : Bool
  optimisticUpdate : Bool
  optimisticDelete : Bool
deriving DecidableEq, Repr

/-- Modelled from the spec: the default defaults are the safe ones,
optimistic for delete and pessimistic for add and update. -/
def defaultDispatcherOptions : DispatcherOptions :=
  { optimisticAdd := false, optimisticUpdate := false, optimisticDelete := true }

/-- The three save operation kinds of a dispatcher. -/
inductive SaveOp where
  | add
  | update
  | delete
deriving DecidableEq, Repr

/-- Modelled from the spec: how a dispatcher resolves whether a save is
optimistic: an explicit caller argument wins; otherwise the metadata's
dispatcherOptions apply, falling back to the default defaults when the
metadata supplies none. -/
def isOptimisticFor (metaOpts : Option DispatcherOptions)
    (callerOpt : Option Bool) (op : SaveOp) : Bool :=
  match callerOpt with
  | some b => b
  | none =>
      let o := metaOpts.getD defaultDispatcherOptions
      match op with
      | .add => o.optimisticAdd
      | .update => o.optimisticUpdate
      | .delete => o.optimisticDelete

/-- The Villain record of the demo app (id, name, saying). -/
structure Villain where
  id : Nat
  name : String
  saying : String
deriving DecidableEq, Repr

/-- Component-local state of VillainListComponent that its methods
mutate: the addingVillain flag, the selectedVillain reference and the
nextDataSource label (dispatcher calls are external effects and do not
touch this state). -/
structure VillainListState where
  addingVillain : Bool
  selectedVillain : Option Villain
  nextDataSource : Option String
deriving DecidableEq, Repr

/-- The public methods of VillainListComponent. -/
inductive Method where
  | clear
  | deleteVillain (v : Villain)
  | enableAddMode
  | filterVillains
  | getVillains
  | onSelect (v : Villain)
  | save (isAdd : Bool) (v : Villain)
  | setFilterText (value : String)
  | toggleDataSource
  | unselect

/-- State transition of each VillainListComponent method, embedded from
villain-list.component.ts: clear and unselect reset both flags;
deleteVillain calls unselect before dispatching; enableAddMode sets
addingVillain and clears selectedVillain; onSelect clears addingVillain
and selects the villain; toggleDataSource flips nextDataSource and
refreshes; the remaining methods only dispatch. -/
def applyMethod (st : VillainListState) : Method → VillainListState
  | .clear => { st with addingVillain := false, selectedVillain := none }
  | .deleteVillain _ => { st with addingVillain := false, selectedVillain := none }
  | .enableAddMode => { st with addingVillain := true, selectedVillain := none }
  | .filterVillains => st
  | .getVillains => st
  | .onSelect v => { st with addingVillain := false, selectedVillain := some v }
  | .save _ _ => st
  | .setFilterText _ => st
  | .toggleDataSource =>
      { st with
        nextDataSource :=
          if st.nextDataSource = some "Go Local" then some "Go Remote"
          else some "Go Local" }
  | .unselect => { st with addingVillain := false, selectedVillain := none }

/-- The component never shows the add form and a selected villain at the
same time. -/
def ComponentInv (st : VillainListState) : Prop :=
  st.addingVillain = true → st.selectedVillain = none

/-- Concrete metadata on Nat entities keyed by themselves, no comparer,
no filter function; used to instantiate the generic theorems. -/
def natDefUnsorted : EntityDef Nat Nat :=
  { selectId := fun a => a, sortComparer := none, filterFn := none }

/-- Boolean less-or-equal comparer on Nat entities. -/
def natLe : Nat → Nat → Bool := fun a b => decide (a ≤ b)

/-- Concrete metadata on Nat entities with the natLe sort comparer. -/
def natDefSorted : EntityDef Nat Nat :=
  { selectId := fun a => a, sortComparer := some natLe, filterFn := none }

/-- Filter function keeping every entity, used to instantiate the
selector theorems. -/
def keepAll : List Nat → String → List Nat := fun es _ => es

/-- Concrete metadata on Nat entities with a registered filter
function. -/
def natDefFiltered : EntityDef Nat Nat :=
  { selectId := fun a => a, sortComparer := none, filterFn := some keepAll }

/-- The empty concrete slice. -/
def emptySlice : Slice Nat Nat :=
  { ids := [], entities := [], filter := "", loading := false, loaded := false }

/-- A concrete slice holding the single entity 1. -/
def sliceOne : Slice Nat Nat :=
  { ids := [1], entities := [(1, 1)], filter := "", loading := false, loaded := false }

/-- A concrete slice holding three entities in insertion order. -/
def sliceThree : Slice Nat Nat :=
  { ids := [10, 11, 12],
    entities := [(10, 10), (11, 11), (12, 12)],
    filter := "", loading := false, loaded := false }

theorem akeys_nil {κ α : Type} : akeys ([] : List (κ × α)) = [] := rfl

theorem akeys_cons {κ α : Type} (p : κ × α) (ps : List (κ × α)) :
    akeys (p :: ps) = p.1 :: akeys ps := rfl

theorem akeys_append {κ α : Type} (es fs : List (κ × α)) :
    akeys (es ++ fs) = akeys es ++ akeys fs :=
  List.map_append Prod.fst es fs

theorem mem_akeys_of_mem {κ α : Type} {p : κ × α} {es : List (κ × α)}
    (h : p ∈ es) : p.1 ∈ akeys es :=
  List.mem_map_of_mem Prod.fst h

theorem alookup_eq_none_of_not_mem {κ α : Type} [DecidableEq κ] {k : κ}
    {es : List (κ × α)} (h : k ∉ akeys es) : alookup k es = none := by
  induction es with
  | nil => rfl
  | cons p ps ih =>
    rw [akeys_cons, List.mem_cons, not_or] at h
    rw [alookup, if_neg (fun hpk => h.1 hpk.symm)]
    exact ih h.2

theorem alookup_mem {κ α : Type} [DecidableEq κ] {p : κ × α} {es : List (κ × α)}
    (hn : (akeys es).Nodup) (hp : p ∈ es) : alookup p.1 es = some p.2 := by
  induction es with
  | nil => cases hp
  | cons q qs ih =>
    rw [akeys_cons, List.nodup_cons] at hn
    rcases List.mem_cons.mp hp with h | h
    · subst h; simp [alookup]
    · have hne : q.1 ≠ p.1 := fun he => hn.1 (he ▸ mem_akeys_of_mem h)
      rw [alookup, if_neg hne]
      exact ih hn.2 h

theorem filter_ne_eq_self {κ α : Type} [DecidableEq κ] {k : κ} {es : List (κ × α)}
    (h : k ∉ akeys es) : es.filter (fun p => decide (p.1 ≠ k)) = es :=
  List.filter_eq_self.mpr (fun p hp =>
    decide_eq_true (fun he => h (he ▸ mem_akeys_of_mem hp)))

theorem akeys_filter_ne {κ α : Type} [DecidableEq κ] {k : κ} {es : List (κ × α)}
    (hn : (akeys es).Nodup) :
    akeys (es.filter (fun p => decide (p.1 ≠ k))) = (akeys es).erase k := by
  induction es with
  | nil => rfl
  | cons p ps ih =>
    rw [akeys_cons, List.nodup_cons] at hn
    by_cases hpk : p.1 = k
    · subst hpk
      rw [List.filter_cons, if_neg (by simp), filter_ne_eq_self hn.1,
        akeys_cons, List.erase_cons_head]
    · rw [List.filter_cons, if_pos (by simp [hpk]), akeys_cons, akeys_cons,
        List.erase_cons_tail (by simp [hpk]), ih hn.2]

theorem filter_orderedInsert {κ α : Type} [DecidableEq κ] {k : κ} {e : α}
    (le : α → α → Bool) {es : List (κ × α)} (h : k ∉ akeys es) :
    (List.orderedInsert (pairLe le) (k, e) es).filter
      (fun p => decide (p.1 ≠ k)) = es := by
  induction es with
  | nil => simp
  | cons q qs ih =>
    rw [akeys_cons, List.mem_cons, not_or] at h
    have h1 : q.1 ≠ k := fun hq => h.1 hq.symm
    by_cases hle : pairLe le (k, e) q
    · rw [List.orderedInsert, if_pos hle, List.filter_cons, if_neg (by simp),
        List.filter_cons, if_pos (by simp [h1]), filter_ne_eq_self h.2]
    · rw [List.orderedInsert, if_neg hle, List.filter_cons,
        if_pos (by simp [h1]), ih h.2]

theorem erase_akeys_orderedInsert {κ α : Type} [DecidableEq κ] {k : κ} {e : α}
    (le : α → α → Bool) {es : List (κ × α)} (h : k ∉ akeys es) :
    (akeys (List.orderedInsert (pairLe le) (k, e) es)).erase k = akeys es := by
  induction es with
  | nil => simp [akeys_cons, akeys_nil]
  | cons q qs ih =>
    rw [akeys_cons, List.mem_cons, not_or] at h
    have h1 : q.1 ≠ k := fun hq => h.1 hq.symm
    by_cases hle : pairLe le (k, e) q
    · rw [List.orderedInsert, if_pos hle, akeys_cons, akeys_cons]
      exact List.erase_cons_head k _
    · rw [List.orderedInsert, if_neg hle, akeys_cons,
        List.erase_cons_tail (by simp [h1]), ih h.2, akeys_cons]

theorem pairwise_orderedInsert {κ α : Type} {le : α → α → Bool}
    (hTot : ∀ x y, le x y = true ∨ le y x = true)
    (hTrans : ∀ x y z, le x y = true → le y z = true → le x z = true)
    (p : κ × α) {es : List (κ × α)} (h : es.Pairwise (pairLe le)) :
    (List.orderedInsert (pairLe le) p es).Pairwise (pairLe le) := by
  haveI : IsTotal (κ × α) (pairLe le) := ⟨fun a b => hTot a.2 b.2⟩
  haveI : IsTrans (κ × α) (pairLe le) := ⟨fun a b c hab hbc => hTrans a.2 b.2 c.2 hab hbc⟩
  exact List.Sorted.orderedInsert p es h

theorem akeys_orderedInsert_perm {κ α : Type} (le : α → α → Bool) (p : κ × α)
    (es : List (κ × α)) :
    (akeys (List.orderedInsert (pairLe le) p es)).Perm (p.1 :: akeys es) :=
  (List.perm_orderedInsert (pairLe le) p es).map Prod.fst

theorem akeys_insertIdx {κ α : Type} (i : Nat) (p : κ × α) (es : List (κ × α)) :
    akeys (es.insertIdx i p) = (akeys es).insertIdx i p.1 := by
  induction es generalizing i with
  | nil => cases i <;> simp [List.insertIdx_succ_nil, akeys_cons, akeys_nil]
  | cons q qs ih =>
    cases i with
    | zero => simp [List.insertIdx_zero, akeys_cons]
    | succ n => rw [List.insertIdx_succ_cons, akeys_cons, akeys_cons, ih,
        List.insertIdx_succ_cons]

theorem nodup_insertIdx {κ : Type} {k : κ} {l : List κ} (i : Nat)
    (hk : k ∉ l) (hn : l.Nodup) : (l.insertIdx i k).Nodup := by
  induction l generalizing i with
  | nil =>
    cases i with
    | zero => simp
    | succ n => rw [List.insertIdx_succ_nil]; exact List.nodup_nil
  | cons x xs ih =>
    rcases List.nodup_cons.mp hn with ⟨hx, hxs⟩
    have hk1 : k ≠ x := fun he => hk (by simp [he])
    have hk2 : k ∉ xs := fun he => hk (List.mem_cons_of_mem _ he)
    cases i with
    | zero =>
      rw [List.insertIdx_zero]
      exact List.nodup_cons.mpr ⟨hk, hn⟩
    | succ n =>
      rw [List.insertIdx_succ_cons]
      refine List.nodup_cons.mpr ⟨?_, ih n hk2 hxs⟩
      intro hm
      by_cases hlen : n ≤ xs.length
      · rcases (List.mem_insertIdx hlen).mp hm with he | he
        · exact hk1 he.symm
        · exact hx he
      · rw [List.insertIdx_of_length_lt xs k n (by omega)] at hm
        exact hx hm

theorem insertIdx_erase {κ : Type} [DecidableEq κ] {l : List κ} {k : κ}
    {i : Nat} (hn : l.Nodup) (hi : l[i]? = some k) :
    (l.erase k).insertIdx i k = l := by
  induction l generalizing i with
  | nil => simp at hi
  | cons x xs ih =>
    rcases List.nodup_cons.mp hn with ⟨hx, hxs⟩
    cases i with
    | zero =>
      rw [List.getElem?_cons_zero] at hi
      injection hi with hi
      subst hi
      rw [List.erase_cons_head, List.insertIdx_zero]
    | succ n =>
      rw [List.getElem?_cons_succ] at hi
      have hkxs : k ∈ xs := by
        obtain ⟨hlt, rfl⟩ := List.getElem?_eq_some_iff.mp hi
        exact List.getElem_mem hlt
      have hxk : ¬(x == k) = true := by
        simp only [beq_iff_eq]
        exact fun he => hx (he ▸ hkxs)
      rw [List.erase_cons_tail hxk, List.insertIdx_succ_cons, ih hxs hi]

theorem insertEntity_of_mem {κ α : Type} [DecidableEq κ] {d : EntityDef κ α}
    {e : α} {s : Slice κ α} (h : d.selectId e ∈ s.ids) :
    insertEntity d e s = s := by
  rw [insertEntity, if_pos h]

theorem insertEntity_none {κ α : Type} [DecidableEq κ] {d : EntityDef κ α}
    {e : α} {s : Slice κ α} (hc : d.sortComparer = none)
    (h : d.selectId e ∉ s.ids) :
    insertEntity d e s =
      { s with
        ids := s.ids ++ [d.selectId e],
        entities := s.entities ++ [(d.selectId e, e)] } := by
  rw [insertEntity, if_neg h, hc]

theorem insertEntity_some {κ α : Type} [DecidableEq κ] {d : EntityDef κ α}
    {e : α} {s : Slice κ α} {le : α → α → Bool}
    (hc : d.sortComparer = some le) (h : d.selectId e ∉ s.ids) :
    insertEntity d e s =
      { s with
        ids := akeys (List.orderedInsert (pairLe le) (d.selectId e, e) s.entities),
        entities := List.orderedInsert (pairLe le) (d.selectId e, e) s.entities } := by
  rw [insertEntity, if_neg h, hc]

theorem updateEntity_of_not_mem {κ α : Type} [DecidableEq κ] {d : EntityDef κ α}
    {e : α} {s : Slice κ α} (h : d.selectId e ∉ s.ids) :
    updateEntity d e s = s := by
  rw [updateEntity, if_neg h]

theorem updateEntity_none {κ α : Type} [DecidableEq κ] {d : EntityDef κ α}
    {e : α} {s : Slice κ α} (hc : d.sortComparer = none)
    (h : d.selectId e ∈ s.ids) :
    updateEntity d e s =
      { s with
        entities :=
          s.entities.map
            (fun p => if p.1 = d.selectId e then (d.selectId e, e) else p) } := by
  rw [updateEntity, if_pos h, hc]

theorem updateEntity_some {κ α : Type} [DecidableEq κ] {d : EntityDef κ α}
    {e : α} {s : Slice κ α} {le : α → α → Bool}
    (hc : d.sortComparer = some le) (h : d.selectId e ∈ s.ids) :
    updateEntity d e s =
      { s with
        ids :=
          akeys (List.orderedInsert (pairLe le) (d.selectId e, e)
            (s.entities.filter (fun p => decide (p.1 ≠ d.selectId e)))),
        entities :=
          List.orderedInsert (pairLe le) (d.selectId e, e)
            (s.entities.filter (fun p => decide (p.1 ≠ d.selectId e))) } := by
  rw [updateEntity, if_pos h, hc]

theorem reinsertEntity_of_mem {κ α : Type} [DecidableEq κ] {d : EntityDef κ α}
    {e : α} {i : Nat} {s : Slice κ α} (h : d.selectId e ∈ s.ids) :
    reinsertEntity d e i s = s := by
  rw [reinsertEntity, if_pos h]

theorem reinsertEntity_none {κ α : Type} [DecidableEq κ] {d : EntityDef κ α}
    {e : α} {i : Nat} {s : Slice κ α} (hc : d.sortComparer = none)
    (h : d.selectId e ∉ s.ids) :
    reinsertEntity d e i s =
      { s with
        ids := s.ids.insertIdx i (d.selectId e),
        entities := s.entities.insertIdx i (d.selectId e, e) } := by
  rw [reinsertEntity, if_neg h, hc]

theorem reinsertEntity_some {κ α : Type} [DecidableEq κ] {d : EntityDef κ α}
    {e : α} {i : Nat} {s : Slice κ α} {le : α → α → Bool}
    (hc : d.sortComparer = some le) (h : d.selectId e ∉ s.ids) :
    reinsertEntity d e i s =
      { s with
        ids := akeys (List.orderedInsert (pairLe le) (d.selectId e, e) s.entities),
        entities := List.orderedInsert (pairLe le) (d.selectId e, e) s.entities } := by
  rw [reinsertEntity, if_neg h, hc]

theorem akeys_map_update {κ α : Type} [DecidableEq κ] (k : κ) (e : α)
    (es : List (κ × α)) :
    akeys (es.map (fun p => if p.1 = k then (k, e) else p)) = akeys es := by
  induction es with
  | nil => rfl
  | cons p ps ih =>
    by_cases hp : p.1 = k
    · simp [akeys_cons, hp, ih]
    · simp [akeys_cons, hp, ih]

theorem wf_flags {κ α : Type} {d : EntityDef κ α} {s : Slice κ α}
    (hs : WF d s) (ids2 : List κ) (es2 : List (κ × α)) (f : String)
    (lg ld : Bool) (hids : ids2 = s.ids) (hes : es2 = s.entities) :
    WF d { ids := ids2, entities := es2, filter := f, loading := lg, loaded := ld } := by
  subst hids
  subst hes
  exact ⟨hs.nodup, hs.idsEq, hs.sorted⟩

theorem wf_insertEntity {κ α : Type} [DecidableEq κ] {d : EntityDef κ α}
    {e : α} {s : Slice κ α} (hd : GoodDef d) (hs : WF d s) :
    WF d (insertEntity d e s) := by
  by_cases hk : d.selectId e ∈ s.ids
  · rw [insertEntity_of_mem hk]; exact hs
  · have hk2 : d.selectId e ∉ akeys s.entities := hs.idsEq ▸ hk
    cases hc : d.sortComparer with
    | none =>
      rw [insertEntity_none hc hk]
      refine ⟨?_, ?_, ?_⟩
      · show (akeys (s.entities ++ [(d.selectId e, e)])).Nodup
        rw [akeys_append, akeys_cons, akeys_nil]
        exact List.nodup_append.mpr
          ⟨hs.nodup, List.nodup_singleton _,
            List.disjoint_singleton.mpr hk2⟩
      · show s.ids ++ [d.selectId e] = akeys (s.entities ++ [(d.selectId e, e)])
        rw [akeys_append, akeys_cons, akeys_nil, hs.idsEq]
      · intro le hle
        rw [hc] at hle
        cases hle
    | some le' =>
      rw [insertEntity_some hc hk]
      refine ⟨?_, rfl, ?_⟩
      · show (akeys (List.orderedInsert (pairLe le') (d.selectId e, e) s.entities)).Nodup
        exact (akeys_orderedInsert_perm le' _ _).nodup_iff.mpr
          (List.nodup_cons.mpr ⟨hk2, hs.nodup⟩)
      · intro le hle
        rw [hc] at hle
        injection hle with hle
        subst hle
        exact pairwise_orderedInsert (hd le' hc).1 (hd le' hc).2 _ (hs.sorted le' hc)

theorem wf_removeEntity {κ α : Type} [DecidableEq κ] {d : EntityDef κ α}
    {k : κ} {s : Slice κ α} (hs : WF d s) : WF d (removeEntity k s) := by
  refine ⟨?_, ?_, ?_⟩
  · show (akeys (s.entities.filter (fun p => decide (p.1 ≠ k)))).Nodup
    rw [akeys_filter_ne hs.nodup]
    exact hs.nodup.erase k
  · show s.ids.erase k = akeys (s.entities.filter (fun p => decide (p.1 ≠ k)))
    rw [akeys_filter_ne hs.nodup, hs.idsEq]
  · intro le hle
    exact (hs.sorted le hle).filter _

theorem wf_updateEntity {κ α : Type} [DecidableEq κ] {d : EntityDef κ α}
    {e : α} {s : Slice κ α} (hd : GoodDef d) (hs : WF d s) :
    WF d (updateEntity d e s) := by
  by_cases hk : d.selectId e ∈ s.ids
  · cases hc : d.sortComparer with
    | none =>
      rw [updateEntity_none hc hk]
      refine ⟨?_, ?_, ?_⟩
      · show (akeys (s.entities.map _)).Nodup
        rw [akeys_map_update]
        exact hs.nodup
      · show s.ids = akeys (s.entities.map _)
        rw [akeys_map_update, hs.idsEq]
      · intro le hle
        rw [hc] at hle
        cases hle
    | some le' =>
      rw [updateEntity_some hc hk]
      refine ⟨?_, rfl, ?_⟩
      · show (akeys (List.orderedInsert (pairLe le') (d.selectId e, e) _)).Nodup
        refine (akeys_orderedInsert_perm le' _ _).nodup_iff.mpr
          (List.nodup_cons.mpr ⟨?_, ?_⟩)
        · rw [akeys_filter_ne hs.nodup]
          rw [hs.nodup.mem_erase_iff]
          exact fun hcon => hcon.1 rfl
        · rw [akeys_filter_ne hs.nodup]
          exact hs.nodup.erase _
      · intro le hle
        rw [hc] at hle
        injection hle with hle
        subst hle
        exact pairwise_orderedInsert (hd le' hc).1 (hd le' hc).2 _
          ((hs.sorted le' hc).filter _)
  · rw [updateEntity_of_not_mem hk]
    exact hs

theorem wf_reinsertEntity {κ α : Type} [DecidableEq κ] {d : EntityDef κ α}
    {e : α} {i : Nat} {s : Slice κ α} (hd : GoodDef d) (hs : WF d s) :
    WF d (reinsertEntity d e i s) := by
  by_cases hk : d.selectId e ∈ s.ids
  · rw [reinsertEntity_of_mem hk]; exact hs
  · have hk2 : d.selectId e ∉ akeys s.entities := hs.idsEq ▸ hk
    cases hc : d.sortComparer with
    | none =>
      rw [reinsertEntity_none hc hk]
      refine ⟨?_, ?_, ?_⟩
      · show (akeys (s.entities.insertIdx i (d.selectId e, e))).Nodup
        rw [akeys_insertIdx]
        exact nodup_insertIdx i hk2 hs.nodup
      · show s.ids.insertIdx i (d.selectId e) = akeys (s.entities.insertIdx i (d.selectId e, e))
        rw [akeys_insertIdx, hs.idsEq]
      · intro le hle
        rw [hc] at hle
        cases hle
    | some le' =>
      rw [reinsertEntity_some hc hk]
      refine ⟨?_, rfl, ?_⟩
      · show (akeys (List.orderedInsert (pairLe le') (d.selectId e, e) s.entities)).Nodup
        exact (akeys_orderedInsert_perm le' _ _).nodup_iff.mpr
          (List.nodup_cons.mpr ⟨hk2, hs.nodup⟩)
      · intro le hle
        rw [hc] at hle
        injection hle with hle
        subst hle
        exact pairwise_orderedInsert (hd le' hc).1 (hd le' hc).2 _ (hs.sorted le' hc)

theorem wf_upsertEntity {κ α : Type} [DecidableEq κ] {d : EntityDef κ α}
    {e : α} {s : Slice κ α} (hd : GoodDef d) (hs : WF d s) :
    WF d (upsertEntity d e s) := by
  rw [upsertEntity]
  by_cases hk : d.selectId e ∈ s.ids
  · rw [if_pos hk]; exact wf_updateEntity hd hs
  · rw [if_neg hk]; exact wf_insertEntity hd hs

theorem wf_foldl_insert {κ α : Type} [DecidableEq κ] {d : EntityDef κ α}
    (hd : GoodDef d) (rs : List α) : ∀ acc : Slice κ α, WF d acc →
    WF d (rs.foldl (fun a e => insertEntity d e a) acc) := by
  induction rs with
  | nil => exact fun acc h => h
  | cons r rs ih => exact fun acc h => ih _ (wf_insertEntity hd h)

theorem wf_foldl_upsert {κ α : Type} [DecidableEq κ] {d : EntityDef κ α}
    (hd : GoodDef d) (rs : List α) : ∀ acc : Slice κ α, WF d acc →
    WF d (rs.foldl (fun a e => upsertEntity d e a) acc) := by
  induction rs with
  | nil => exact fun acc h => h
  | cons r rs ih => exact fun acc h => ih _ (wf_upsertEntity hd h)

theorem wf_reduce {κ α : Type} [DecidableEq κ] {d : EntityDef κ α}
    {s : Slice κ α} (hd : GoodDef d) (hs : WF d s) :
    ∀ a : Action κ α, WF d (reduce d s a)
  | .queryAllStart => ⟨hs.nodup, hs.idsEq, hs.sorted⟩
  | .queryAllSuccess rs =>
      wf_foldl_insert hd rs _ ⟨List.nodup_nil, rfl, fun _ _ => List.Pairwise.nil⟩
  | .queryAllError => ⟨hs.nodup, hs.idsEq, hs.sorted⟩
  | .queryManyStart => ⟨hs.nodup, hs.idsEq, hs.sorted⟩
  | .queryManySuccess rs =>
      ⟨(wf_foldl_upsert hd rs s hs).nodup, (wf_foldl_upsert hd rs s hs).idsEq,
        (wf_foldl_upsert hd rs s hs).sorted⟩
  | .queryManyError => ⟨hs.nodup, hs.idsEq, hs.sorted⟩
  | .saveAddOptimistic _ => wf_insertEntity hd hs
  | .saveAddError _ => wf_removeEntity hs
  | .saveAddPessimisticSuccess _ => wf_insertEntity hd hs
  | .saveUpdateOptimistic _ => wf_updateEntity hd hs
  | .saveUpdateError _ => wf_updateEntity hd hs
  | .saveUpdatePessimisticSuccess _ => wf_updateEntity hd hs
  | .saveDeleteOptimistic _ => wf_removeEntity hs
  | .saveDeleteError _ _ => wf_reinsertEntity hd hs
  | .saveDeletePessimisticSuccess _ => wf_removeEntity hs
  | .setFilterAction _ => ⟨hs.nodup, hs.idsEq, hs.sorted⟩

theorem wf_reduceAll {κ α : Type} [DecidableEq κ] {d : EntityDef κ α}
    (hd : GoodDef d) (acts : List (Action κ α)) :
    ∀ s : Slice κ α, WF d s → WF d (reduceAll d s acts) := by
  induction acts with
  | nil => exact fun s hs => hs
  | cons a as ih => exact fun s hs => ih _ (wf_reduce hd hs a)

theorem pairwise_keyLe_of_wf {κ α : Type} [DecidableEq κ] {le : α → α → Bool}
    {es : List (κ × α)} (hn : (akeys es).Nodup) (hp : es.Pairwise (pairLe le)) :
    (akeys es).Pairwise (keyLe le es) := by
  have h : es.Pairwise (fun p q => keyLe le es p.1 q.1) := by
    refine hp.imp_of_mem ?_
    intro p q hpm hqm hle a b ha hb
    rw [alookup_mem hn hpm] at ha
    rw [alookup_mem hn hqm] at hb
    injection ha with ha
    injection hb with hb
    subst ha
    subst hb
    exact hle
  exact List.pairwise_map.mpr h

theorem insertEntity_fields {κ α : Type} [DecidableEq κ] (d : EntityDef κ α)
    (e : α) (s : Slice κ α) :
    (insertEntity d e s).filter = s.filter ∧
    (insertEntity d e s).loading = s.loading ∧
    (insertEntity d e s).loaded = s.loaded := by
  by_cases hk : d.selectId e ∈ s.ids
  · rw [insertEntity_of_mem hk]
    exact ⟨rfl, rfl, rfl⟩
  · cases hc : d.sortComparer with
    | none => rw [insertEntity_none hc hk]; exact ⟨rfl, rfl, rfl⟩
    | some le => rw [insertEntity_some hc hk]; exact ⟨rfl, rfl, rfl⟩

theorem foldl_insert_fields {κ α : Type} [DecidableEq κ] (d : EntityDef κ α)
    (rs : List α) : ∀ acc : Slice κ α,
    (rs.foldl (fun a e => insertEntity d e a) acc).filter = acc.filter := by
  induction rs with
  | nil => exact fun acc => rfl
  | cons r rs ih =>
    intro acc
    exact (ih (insertEntity d r acc)).trans (insertEntity_fields d r acc).1

/-- Claim C1: for every collection slice and every sequence of reducer
actions, after each action the slice's ids sequence and the key set of
its entities mapping are in 1:1 correspondence with no duplicate keys; if
the entity type's sortComparer is present, ids is sorted by that comparer
after every mutation, and if no sortComparer is present, newly added
entities appear at the end of ids. -/
theorem claimC1_ids_entities_invariant {κ α : Type} [DecidableEq κ]
    (d : EntityDef κ α) (hd : GoodDef d) (s : Slice κ α) (hs : WF d s)
    (acts : List (Action κ α)) :
    ((akeys (reduceAll d s acts).entities).Nodup ∧
      (reduceAll d s acts).ids = akeys (reduceAll d s acts).entities) ∧
    (∀ le, d.sortComparer = some le →
      (reduceAll d s acts).ids.Pairwise (keyLe le (reduceAll d s acts).entities)) ∧
    (d.sortComparer = none → ∀ e, d.selectId e ∉ (reduceAll d s acts).ids →
      (reduce d (reduceAll d s acts) (Action.saveAddOptimistic e)).ids =
        (reduceAll d s acts).ids ++ [d.selectId e]) := by
  have ht := wf_reduceAll hd acts s hs
  refine ⟨⟨ht.nodup, ht.idsEq⟩, ?_, ?_⟩
  · intro le hle
    rw [ht.idsEq]
    exact pairwise_keyLe_of_wf ht.nodup (ht.sorted le hle)
  · intro hc e hk
    show (insertEntity d e (reduceAll d s acts)).ids = _
    rw [insertEntity_none hc hk]

/-- Witness for claim C1 at a concrete sorted entity type, slice and
action sequence. -/
theorem claimC1_witness :
    ((akeys (reduceAll natDefSorted emptySlice
        [Action.saveAddOptimistic 2, Action.saveAddOptimistic 1,
          Action.saveUpdateOptimistic 2, Action.saveDeleteOptimistic 1,
          Action.queryManySuccess [5, 3]]).entities).Nodup ∧
      (reduceAll natDefSorted emptySlice
        [Action.saveAddOptimistic 2, Action.saveAddOptimistic 1,
          Action.saveUpdateOptimistic 2, Action.saveDeleteOptimistic 1,
          Action.queryManySuccess [5, 3]]).ids =
        akeys (reduceAll natDefSorted emptySlice
          [Action.saveAddOptimistic 2, Action.saveAddOptimistic 1,
            Action.saveUpdateOptimistic 2, Action.saveDeleteOptimistic 1,
            Action.queryManySuccess [5, 3]]).entities) ∧
    (∀ le, natDefSorted.sortComparer = some le →
      (reduceAll natDefSorted emptySlice
        [Action.saveAddOptimistic 2, Action.saveAddOptimistic 1,
          Action.saveUpdateOptimistic 2, Action.saveDeleteOptimistic 1,
          Action.queryManySuccess [5, 3]]).ids.Pairwise
        (keyLe le (reduceAll natDefSorted emptySlice
          [Action.saveAddOptimistic 2, Action.saveAddOptimistic 1,
            Action.saveUpdateOptimistic 2, Action.saveDeleteOptimistic 1,
            Action.queryManySuccess [5, 3]]).entities)) ∧
    (natDefSorted.sortComparer = none → ∀ e,
      natDefSorted.selectId e ∉ (reduceAll natDefSorted emptySlice
        [Action.saveAddOptimistic 2, Action.saveAddOptimistic 1,
          Action.saveUpdateOptimistic 2, Action.saveDeleteOptimistic 1,
          Action.queryManySuccess [5, 3]]).ids →
      (reduce natDefSorted (reduceAll natDefSorted emptySlice
        [Action.saveAddOptimistic 2, Action.saveAddOptimistic 1,
          Action.saveUpdateOptimistic 2, Action.saveDeleteOptimistic 1,
          Action.queryManySuccess [5, 3]]) (Action.saveAddOptimistic e)).ids =
        (reduceAll natDefSorted emptySlice
          [Action.saveAddOptimistic 2, Action.saveAddOptimistic 1,
            Action.saveUpdateOptimistic 2, Action.saveDeleteOptimistic 1,
            Action.queryManySuccess [5, 3]]).ids ++ [natDefSorted.selectId e]) :=
  claimC1_ids_entities_invariant natDefSorted
    (by
      intro le hle
      have h2 : natLe = le := by simpa [natDefSorted] using hle
      subst h2
      constructor
      · intro x y
        rcases Nat.le_total x y with h | h
        · exact Or.inl (decide_eq_true h)
        · exact Or.inr (decide_eq_true h)
      · intro x y z hxy hyz
        exact decide_eq_true
          (Nat.le_trans (of_decide_eq_true hxy) (of_decide_eq_true hyz)))
    emptySlice
    ⟨List.nodup_nil, rfl, fun _ _ => List.Pairwise.nil⟩
    [Action.saveAddOptimistic 2, Action.saveAddOptimistic 1,
      Action.saveUpdateOptimistic 2, Action.saveDeleteOptimistic 1,
      Action.queryManySuccess [5, 3]]

/-- Claim C2 (counterexample): optimistic SAVE_ADD followed by its
failure rollback does not restore every slice.  When the added entity's
key is already present, the add is a no-op (the invariant forbids
duplicate keys) but the rollback still removes that key, so the
pre-existing entity is lost. -/
theorem claimC2_counterexample :
    reduce natDefUnsorted
        (reduce natDefUnsorted sliceOne (Action.saveAddOptimistic 1))
        (Action.saveAddError 1) ≠ sliceOne := by
  decide

/-- Claim C2 (amended): for every well-formed slice S and entity e whose
key is not already in S, applying the optimistic SAVE_ADD for e and then
the corresponding failure rollback yields exactly S. -/
theorem claimC2_add_rollback_roundtrip {κ α : Type} [DecidableEq κ]
    (d : EntityDef κ α) (s : Slice κ α) (e : α) (hs : WF d s)
    (hk : d.selectId e ∉ s.ids) :
    reduce d (reduce d s (Action.saveAddOptimistic e)) (Action.saveAddError e) = s := by
  have hk2 : d.selectId e ∉ akeys s.entities := hs.idsEq ▸ hk
  show removeEntity (d.selectId e) (insertEntity d e s) = s
  cases hc : d.sortComparer with
  | none =>
    rw [insertEntity_none hc hk]
    refine Slice.ext ?_ ?_ rfl rfl rfl
    · show (s.ids ++ [d.selectId e]).erase (d.selectId e) = s.ids
      rw [List.erase_append_right _ hk, List.erase_cons_head, List.append_nil]
    · show (s.entities ++ [(d.selectId e, e)]).filter
        (fun p => decide (p.1 ≠ d.selectId e)) = s.entities
      rw [List.filter_append, filter_ne_eq_self hk2]
      simp
  | some le =>
    rw [insertEntity_some hc hk]
    refine Slice.ext ?_ ?_ rfl rfl rfl
    · show (akeys (List.orderedInsert (pairLe le) (d.selectId e, e)
        s.entities)).erase (d.selectId e) = s.ids
      rw [erase_akeys_orderedInsert le hk2, hs.idsEq]
    · show (List.orderedInsert (pairLe le) (d.selectId e, e)
        s.entities).filter (fun p => decide (p.1 ≠ d.selectId e)) = s.entities
      exact filter_orderedInsert le hk2

/-- Witness for the amended claim C2 at a concrete slice and a fresh
entity. -/
theorem claimC2_witness :
    reduce natDefUnsorted (reduce natDefUnsorted sliceOne (Action.saveAddOptimistic 2))
        (Action.saveAddError 2) = sliceOne :=
  claimC2_add_rollback_roundtrip natDefUnsorted sliceOne 2
    ⟨by decide, rfl, fun le hle => by simp [natDefUnsorted] at hle⟩
    (by decide)

/-- Claim C3: for every well-formed slice without a sortComparer holding
entity e at index i, optimistic SAVE_DELETE of e followed by the
corresponding failure action re-inserts e's key into ids at exactly its
original index i (indeed, ids is restored entirely). -/
theorem claimC3_delete_rollback_position {κ α : Type} [DecidableEq κ]
    (d : EntityDef κ α) (s : Slice κ α) (e : α) (i : Nat)
    (hc : d.sortComparer = none) (hs : WF d s)
    (hi : s.ids[i]? = some (d.selectId e))
    (he : alookup (d.selectId e) s.entities = some e) :
    (reduce d (reduce d s (Action.saveDeleteOptimistic (d.selectId e)))
        (Action.saveDeleteError e i)).ids = s.ids ∧
    (reduce d (reduce d s (Action.saveDeleteOptimistic (d.selectId e)))
        (Action.saveDeleteError e i)).ids[i]? = some (d.selectId e) := by
  have hnodup : s.ids.Nodup := hs.idsEq ▸ hs.nodup
  have hk : d.selectId e ∉ (removeEntity (d.selectId e) s).ids := by
    show d.selectId e ∉ s.ids.erase (d.selectId e)
    intro hcon
    exact (hnodup.mem_erase_iff.mp hcon).1 rfl
  have h1 : (reinsertEntity d e i (removeEntity (d.selectId e) s)).ids = s.ids := by
    rw [reinsertEntity_none hc hk]
    show (s.ids.erase (d.selectId e)).insertIdx i (d.selectId e) = s.ids
    exact insertIdx_erase hnodup hi
  exact ⟨h1, by rw [show (reduce d (reduce d s
    (Action.saveDeleteOptimistic (d.selectId e))) (Action.saveDeleteError e i)).ids =
      s.ids from h1]; exact hi⟩

/-- Witness for claim C3: deleting the middle entity of a three-element
unsorted slice and rolling back restores it at index 1. -/
theorem claimC3_witness :
    (reduce natDefUnsorted (reduce natDefUnsorted sliceThree
        (Action.saveDeleteOptimistic (natDefUnsorted.selectId 11)))
        (Action.saveDeleteError 11 1)).ids = sliceThree.ids ∧
    (reduce natDefUnsorted (reduce natDefUnsorted sliceThree
        (Action.saveDeleteOptimistic (natDefUnsorted.selectId 11)))
        (Action.saveDeleteError 11 1)).ids[1]? = some (natDefUnsorted.selectId 11) :=
  claimC3_delete_rollback_position natDefUnsorted sliceThree 11 1 rfl
    ⟨by decide, rfl, fun le hle => by simp [natDefUnsorted] at hle⟩
    (by decide) (by decide)

/-- Claim C4: applying the same successful QUERY_ALL result twice in a
row yields the same CollectionSlice as applying it once. -/
theorem claimC4_query_all_idempotent {κ α : Type} [DecidableEq κ]
    (d : EntityDef κ α) (s : Slice κ α) (rs : List α) :
    reduce d (reduce d s (Action.queryAllSuccess rs)) (Action.queryAllSuccess rs) =
      reduce d s (Action.queryAllSuccess rs) := by
  show loadResults d rs (loadResults d rs s) = loadResults d rs s
  unfold loadResults
  rw [foldl_insert_fields d rs _]

theorem filterMap_alookup {κ α : Type} [DecidableEq κ] {es : List (κ × α)}
    (hn : (akeys es).Nodup) :
    (akeys es).filterMap (fun k => alookup k es) = es.map Prod.snd := by
  induction es with
  | nil => rfl
  | cons p ps ih =>
    rw [akeys_cons] at hn ⊢
    rcases List.nodup_cons.mp hn with ⟨hp, hps⟩
    have h1 : alookup p.1 (p :: ps) = some p.2 := by rw [alookup, if_pos rfl]
    have h2 : ∀ k ∈ akeys ps, alookup k (p :: ps) = alookup k ps := by
      intro k hk
      rw [alookup, if_neg (fun (he : p.1 = k) => hp (by rw [he]; exact hk))]
    calc List.filterMap (fun k => alookup k (p :: ps)) (p.1 :: akeys ps)
        = p.2 :: List.filterMap (fun k => alookup k (p :: ps)) (akeys ps) := by
          rw [List.filterMap_cons, h1]
      _ = p.2 :: List.filterMap (fun k => alookup k ps) (akeys ps) := by
          rw [List.filterMap_congr h2]
      _ = p.2 :: ps.map Prod.snd := by rw [ih hps]
      _ = (p :: ps).map Prod.snd := rfl

/-- Claim C5: for every collection slice, filteredEntities equals
filterFn applied to selectAll and the slice's filter when a filterFn is
registered, and equals selectAll otherwise; for a well-formed slice,
selectAll is all entities in ids order. -/
theorem claimC5_filteredEntities {κ α : Type} [DecidableEq κ]
    (d : EntityDef κ α) (s : Slice κ α) :
    (∀ f, d.filterFn = some f → filteredEntities d s = f (selectAll s) s.filter) ∧
    (d.filterFn = none → filteredEntities d s = selectAll s) ∧
    (WF d s → selectAll s = s.entities.map Prod.snd) := by
  refine ⟨?_, ?_, ?_⟩
  · intro f hf
    simp only [filteredEntities, hf]
  · intro hf
    simp only [filteredEntities, hf]
  · intro hs
    show s.ids.filterMap (fun k => alookup k s.entities) = s.entities.map Prod.snd
    rw [hs.idsEq]
    exact filterMap_alookup hs.nodup

/-- Witness for claim C5 at a concrete metadata with a registered filter
function and at concrete well-formed slices. -/
theorem claimC5_witness :
    filteredEntities natDefFiltered sliceOne =
      keepAll (selectAll sliceOne) sliceOne.filter ∧
    filteredEntities natDefUnsorted sliceOne = selectAll sliceOne ∧
    selectAll sliceOne = sliceOne.entities.map Prod.snd :=
  ⟨(claimC5_filteredEntities natDefFiltered sliceOne).1 keepAll rfl,
    (claimC5_filteredEntities natDefUnsorted sliceOne).2.1 rfl,
    (claimC5_filteredEntities natDefUnsorted sliceOne).2.2
      ⟨by decide, rfl, fun le hle => by simp [natDefUnsorted] at hle⟩⟩

/-- Claim C6: pluralize returns the mapped plural exactly when the
singular name has a case-sensitive entry in the override mapping and
otherwise appends an s; in particular Hero with override maps to Heroes
and Villain without override maps to Villains. -/
theorem claimC6_pluralize :
    (∀ (m : List (String × String)) (n p : String),
      alookup n m = some p → pluralize m n = p) ∧
    (∀ (m : List (String × String)) (n : String),
      alookup n m = none → pluralize m n = n ++ "s") ∧
    pluralize [("Hero", "Heroes")] "Hero" = "Heroes" ∧
    pluralize [] "Villain" = "Villains" := by
  refine ⟨?_, ?_, by decide, by decide⟩
  · intro m n p h
    simp only [pluralize, h]
  · intro m n h
    simp only [pluralize, h]

/-- Witness for claim C6: the override lookup case discharged at the
Hero mapping and the fallback case discharged at Villain. -/
theorem claimC6_witness :
    pluralize [("Hero", "Heroes")] "Hero" = "Heroes" ∧
    pluralize [] "Villain" = "Villain" ++ "s" :=
  ⟨claimC6_pluralize.1 [("Hero", "Heroes")] "Hero" "Heroes" (by decide),
    claimC6_pluralize.2.1 [] "Villain" rfl⟩

/-- Claim C7: when the caller omits isOptimistic and the metadata
supplies no dispatcherOptions, delete is optimistic while add and update
are pessimistic. -/
theorem claimC7_dispatcher_defaults :
    isOptimisticFor none none SaveOp.delete = true ∧
    isOptimisticFor none none SaveOp.add = false ∧
    isOptimisticFor none none SaveOp.update = false :=
  ⟨rfl, rfl, rfl⟩

/-- Claim C8: a QUERY_ALL or QUERY_MANY failure action sets loading to
false and leaves ids and entities unchanged; the reducer is a total Lean
function, so failure processing never throws. -/
theorem claimC8_query_failure {κ α : Type} [DecidableEq κ]
    (d : EntityDef κ α) (s : Slice κ α) :
    ((reduce d s Action.queryAllError).loading = false ∧
      (reduce d s Action.queryAllError).ids = s.ids ∧
      (reduce d s Action.queryAllError).entities = s.entities) ∧
    ((reduce d s Action.queryManyError).loading = false ∧
      (reduce d s Action.queryManyError).ids = s.ids ∧
      (reduce d s Action.queryManyError).entities = s.entities) :=
  ⟨⟨rfl, rfl, rfl⟩, ⟨rfl, rfl, rfl⟩⟩

/-- Claim C9: resourceUrl is the lowercase entity name and collectionUrl
is the lowercase pluralized entity name, both pure functions of the name
and the pluralizer mapping; evaluated at the demo names. -/
theorem claimC9_urls (m : List (String × String)) (n : String) :
    resourceUrl n = lowerString n ∧
    collectionUrl m n = lowerString (pluralize m n) ∧
    resourceUrl "Hero" = "hero" ∧
    collectionUrl [("Hero", "Heroes")] "Hero" = "heroes" ∧
    collectionUrl [] "Villain" = "villains" := by
  refine ⟨rfl, rfl, ?_, ?_, ?_⟩ <;> decide

/-- Claim C10: every public method of VillainListComponent preserves the
invariant that addingVillain and a non-null selectedVillain never hold
together, and each method either clears one of the two fields or leaves
both untouched. -/
theorem claimC10_component_invariant (st : VillainListState) (m : Method)
    (h : ComponentInv st) :
    ComponentInv (applyMethod st m) ∧
    ((applyMethod st m).addingVillain = false ∨
      (applyMethod st m).selectedVillain = none ∨
      ((applyMethod st m).addingVillain = st.addingVillain ∧
        (applyMethod st m).selectedVillain = st.selectedVillain)) := by
  cases m with
  | clear => exact ⟨fun _ => rfl, Or.inl rfl⟩
  | deleteVillain v => exact ⟨fun _ => rfl, Or.inl rfl⟩
  | enableAddMode => exact ⟨fun _ => rfl, Or.inr (Or.inl rfl)⟩
  | filterVillains => exact ⟨h, Or.inr (Or.inr ⟨rfl, rfl⟩)⟩
  | getVillains => exact ⟨h, Or.inr (Or.inr ⟨rfl, rfl⟩)⟩
  | onSelect v => exact ⟨fun hcon => Bool.noConfusion hcon, Or.inl rfl⟩
  | save b v => exact ⟨h, Or.inr (Or.inr ⟨rfl, rfl⟩)⟩
  | setFilterText t => exact ⟨h, Or.inr (Or.inr ⟨rfl, rfl⟩)⟩
  | toggleDataSource => exact ⟨h, Or.inr (Or.inr ⟨rfl, rfl⟩)⟩
  | unselect => exact ⟨fun _ => rfl, Or.inl rfl⟩

/-- Witness for claim C10: enabling add mode from the initial component
state. -/
theorem claimC10_witness :
    ComponentInv (applyMethod
      { addingVillain := false, selectedVillain := none, nextDataSource := none }
      Method.enableAddMode) ∧
    ((applyMethod
        { addingVillain := false, selectedVillain := none, nextDataSource := none }
        Method.enableAddMode).addingVillain = false ∨
      (applyMethod
        { addingVillain := false, selectedVillain := none, nextDataSource := none }
        Method.enableAddMode).selectedVillain = none ∨
      ((applyMethod
          { addingVillain := false, selectedVillain := none, nextDataSource := none }
          Method.enableAddMode).addingVillain = false ∧
        (applyMethod
          { addingVillain := false, selectedVillain := none, nextDataSource := none }
          Method.enableAddMode).selectedVillain = none)) :=
  claimC10_component_invariant
    { addingVillain := false, selectedVillain := none, nextDataSource := none }
    Method.enableAddMode (fun hcon => Bool.noConfusion hcon)

end NgrxData
